import Mathlib

/-!
Verification of the query-building, pagination and upload-validation logic of
`src/controllers/bootcamps.js` (Bootcamp-API).  JavaScript strings are embedded
as `List Char`; request query parameters (`req.query`) as association lists
whose values are either text or a nested text-to-text mapping (the shape the
query-string parser produces for `price[gt]=100`).
-/

/-- JavaScript strings are embedded as lists of characters. -/
abbrev Str := List Char

/-- Embed a Lean string literal as a `Str`. -/
def str (s : String) : Str := s.toList

/-- A query-parameter value: plain text, or a nested text-to-text mapping
(as produced for bracket syntax such as `price[gt]=100`). -/
inductive QVal where
  | s (v : Str)
  | m (kvs : List (Str × Str))
deriving DecidableEq

/-- `req.query`: a mapping from parameter name to value. -/
abbrev RawParams := List (Str × QVal)

/-- Key lookup in a parameter mapping (JS object property access). -/
def lookupParam (q : RawParams) (k : Str) : Option QVal :=
  match q with
  | [] => none
  | kv :: rest => if kv.1 = k then some kv.2 else lookupParam rest k

/-- Lookup of a control parameter that is plain text (`select`, `sort`,
`page`, `limit` are text-valued in scope). -/
def lookupStr (q : RawParams) (k : Str) : Option Str :=
  match lookupParam q k with
  | some (QVal.s v) => some v
  | _ => none

def selectKey : Str := str ("select")

def sortKey : Str := str ("sort")

def pageKey : Str := str ("page")

def limitKey : Str := str ("limit")

/-- `const removeFields = ['select', 'sort', 'page', 'limit'];` -/
def removeFieldsList : List Str := [selectKey, sortKey, pageKey, limitKey]

/-- `delete obj[k]` on a parameter object. -/
def deleteKey (q : RawParams) (k : Str) : RawParams :=
  q.filter (fun kv => kv.1 ≠ k)

/-- The two bindings alive during query construction: the original
`req.query` and the spread-copy `reqQuery` that the deletions target. -/
structure QueryState where
  reqQuery : RawParams
  reqQueryCopy : RawParams
deriving DecidableEq

/-- `const reqQuery = { ...req.query };` — the spread copy. -/
def initState (q : RawParams) : QueryState :=
  { reqQuery := q, reqQueryCopy := q }

/-- `removeFields.forEach(param => delete reqQuery[param]);` applied to the
state holding both bindings. -/
def afterRemove (q : RawParams) : QueryState :=
  removeFieldsList.foldl
    (fun st p => { st with reqQueryCopy := deleteKey st.reqQueryCopy p })
    (initState q)

/-- The filter candidates: the copy after the reserved keys are deleted. -/
def removeReserved (q : RawParams) : RawParams :=
  (afterRemove q).reqQueryCopy

/-- Membership of a key in the reserved list. -/
def isReservedKey (k : Str) : Bool :=
  decide (k ∈ removeFieldsList)

/-- A word character in the sense of the JavaScript regex class `\w` —
ASCII digits 0-9, letters A-Z and a-z, and the underscore (code 95) — which
also grounds the word boundary `\b`. -/
def isWordChar (c : Char) : Bool :=
  (48 ≤ c.toNat && c.toNat ≤ 57) || (65 ≤ c.toNat && c.toNat ≤ 90) ||
    (97 ≤ c.toNat && c.toNat ≤ 122) || c.toNat == 95

/-- The operator alternatives of the regex `/\b(gt|gte|lt|lte|in)\b/g`. -/
def opTokens : List Str :=
  [str ("gt"), str ("gte"), str ("lt"), str ("lte"), str ("in")]

/-- `match => `$${match}``: a maximal word run equal to an operator token is
replaced by its dollar-prefixed form; any other run is left alone. -/
def rewriteRun (r : Str) : Str :=
  if r ∈ opTokens then '$' :: r else r

/-- Worker for the global regex replace: `run` is the word run currently
open to the left of the scan position. -/
def opReplaceGo (run : Str) : Str → Str
  | [] => rewriteRun run
  | c :: cs =>
    if isWordChar c then opReplaceGo (run ++ [c]) cs
    else rewriteRun run ++ (c :: opReplaceGo [] cs)

/-- `queryStr.replace(/\b(gt|gte|lt|lte|in)\b/g, match => `$${match}`)`:
every maximal run of word characters that equals an operator token is
rewritten to its dollar-prefixed form. -/
def opReplace (s : Str) : Str :=
  opReplaceGo [] s

/-- Hexadecimal digit used by the `\u00XX` escapes of `JSON.stringify`. -/
def hexDig (n : Nat) : Char :=
  if n < 10 then Char.ofNat (48 + n) else Char.ofNat (87 + n)

/-- The escape `JSON.stringify` applies to one character inside a string
literal. -/
def escapeChar (c : Char) : Str :=
  if c = '"' then ['\\', '"']
  else if c = '\\' then ['\\', '\\']
  else if c = '\n' then ['\\', 'n']
  else if c = '\r' then ['\\', 'r']
  else if c = '\t' then ['\\', 't']
  else if c = '\x08' then ['\\', 'b']
  else if c = '\x0c' then ['\\', 'f']
  else if c.toNat < 32 then ['\\', 'u', '0', '0', hexDig (c.toNat / 16), hexDig (c.toNat % 16)]
  else [c]

/-- Escaped body of a JSON string literal. -/
def escape : Str → Str
  | [] => []
  | c :: cs => escapeChar c ++ escape cs

/-- A JSON string literal: quote, escaped body, quote. -/
def strLit (s : Str) : Str :=
  '"' :: (escape s ++ ['"'])

/-- One `"key":"value"` entry of a nested (operator) object. -/
def innerEntry (kv : Str × Str) : Str :=
  strLit kv.1 ++ (':' :: strLit kv.2)

/-- Comma-joined entries of a nested object. -/
def innerEntries : List (Str × Str) → Str
  | [] => []
  | [kv] => innerEntry kv
  | kv :: kv2 :: kvs => innerEntry kv ++ (',' :: innerEntries (kv2 :: kvs))

/-- Serialization of one parameter value. -/
def stringifyVal : QVal → Str
  | QVal.s v => strLit v
  | QVal.m kvs => '\x7b' :: (innerEntries kvs ++ ['\x7d'])

/-- One `"key":value` entry of the top-level object. -/
def outerEntry (kv : Str × QVal) : Str :=
  strLit kv.1 ++ (':' :: stringifyVal kv.2)

/-- Comma-joined entries of the top-level object. -/
def outerEntries : List (Str × QVal) → Str
  | [] => []
  | [kv] => outerEntry kv
  | kv :: kv2 :: kvs => outerEntry kv ++ (',' :: outerEntries (kv2 :: kvs))

/-- `JSON.stringify(reqQuery)` restricted to the parameter shapes in scope. -/
def jsonStringify (q : RawParams) : Str :=
  '\x7b' :: (outerEntries q ++ ['\x7d'])

/-- Lines 22-26 of the source: serialize the remaining parameters and apply
the global word-boundary operator replace to the whole serialized text. -/
def buildFilterStr (q : RawParams) : Str :=
  opReplace (jsonStringify (removeReserved q))

/-- The effect of the blind textual replace on a single value: the rewrite
reaches the text of values, not only operator keys. -/
def rewriteVal : QVal → QVal
  | QVal.s v => QVal.s (opReplace v)
  | QVal.m kvs => QVal.m (kvs.map (fun kv => (opReplace kv.1, opReplace kv.2)))

/-- Structural description of what the textual replace does to the whole
parameter object: every key and every string value has its maximal word runs
that equal an operator token dollar-prefixed. -/
def blindRewrite (q : RawParams) : RawParams :=
  q.map (fun kv => (opReplace kv.1, rewriteVal kv.2))

/-- No character of the string is a control character (below U+0020); such
strings are escaped by `JSON.stringify` without letter-forming escapes. -/
def noCtrlStr (s : Str) : Bool :=
  s.all (fun c => 32 ≤ c.toNat)

def noCtrlVal : QVal → Bool
  | QVal.s v => noCtrlStr v
  | QVal.m kvs => kvs.all (fun kv => noCtrlStr kv.1 && noCtrlStr kv.2)

def noCtrlParams (q : RawParams) : Bool :=
  q.all (fun kv => noCtrlStr kv.1 && noCtrlVal kv.2)

/-- The string is empty or starts with a non-word character, so no word run
can extend into it from the left. -/
def HeadNW : Str → Prop
  | [] => True
  | c :: _ => isWordChar c = false

/-- Value of digits accumulated left to right. -/
def digitsToNat (ds : Str) : Nat :=
  ds.foldl (fun a c => a * 10 + (c.toNat - 48)) 0

/-- `parseInt(s, 10)`: skip leading whitespace, optional sign, then the
longest prefix of decimal digits; `none` models `NaN`. -/
def parseIntStr (s : Str) : Option Int :=
  let t := s.dropWhile Char.isWhitespace
  match t with
  | '-' :: r =>
    let ds := r.takeWhile Char.isDigit
    if ds.isEmpty then none else some (-(Int.ofNat (digitsToNat ds)))
  | '+' :: r =>
    let ds := r.takeWhile Char.isDigit
    if ds.isEmpty then none else some (Int.ofNat (digitsToNat ds))
  | r =>
    let ds := r.takeWhile Char.isDigit
    if ds.isEmpty then none else some (Int.ofNat (digitsToNat ds))

/-- `parseInt` applied to a parameter that may be missing (`undefined` gives
`NaN`) or a nested object (also `NaN`). -/
def parseIntJs : Option QVal → Option Int
  | some (QVal.s v) => parseIntStr v
  | some (QVal.m _) => none
  | none => none

/-- `x || d` on the parse result: `NaN` and `0` are falsy, so both fall back
to the default. -/
def orDefault (v : Option Int) (d : Int) : Int :=
  match v with
  | some n => if n = 0 then d else n
  | none => d

structure PageRef where
  page : Int
  limit : Int
deriving DecidableEq

structure Pagination where
  page : Int
  limit : Int
  startIndex : Int
  endIndex : Int
  next : Option PageRef
  prev : Option PageRef
deriving DecidableEq

/-- Lines 45-69 of the source: parse `page` and `limit` with defaults 1 and
25, compute the window, and populate `next` when `endIndex < total` and
`prev` when `startIndex > 0`. -/
def buildPagination (q : RawParams) (total : Int) : Pagination :=
  let page := orDefault (parseIntJs (lookupParam q pageKey)) 1
  let limit := orDefault (parseIntJs (lookupParam q limitKey)) 25
  let startIndex := (page - 1) * limit
  let endIndex := page * limit
  { page := page
    limit := limit
    startIndex := startIndex
    endIndex := endIndex
    next := if endIndex < total then some { page := page + 1, limit := limit } else none
    prev := if startIndex > 0 then some { page := page - 1, limit := limit } else none }

/-- Split off the leading segment of a character-separated string:
first segment and remaining segments. -/
def splitOnCharF (sep : Char) : Str → Str × List Str
  | [] => ([], [])
  | c :: cs =>
    let r := splitOnCharF sep cs
    if c = sep then ([], r.1 :: r.2) else (c :: r.1, r.2)

/-- `s.split(sep)` for a one-character separator. -/
def splitOnChar (sep : Char) (s : Str) : List Str :=
  (splitOnCharF sep s).1 :: (splitOnCharF sep s).2

/-- `arr.join(sep)` for a one-character separator. -/
def joinWith (sep : Char) : List Str → Str
  | [] => []
  | [x] => x
  | x :: x2 :: xs => x ++ (sep :: joinWith sep (x2 :: xs))

/-- Lines 37-43 of the source: the sort string handed to the storage layer —
the comma-separated `sort` parameter space-joined, or `-createdAt` when the
parameter is absent (or empty, which is falsy). -/
def buildSortStr (q : RawParams) : Str :=
  match lookupStr q sortKey with
  | some s => if s.isEmpty then str ("-createdAt") else joinWith ' ' (splitOnChar ',' s)
  | none => str ("-createdAt")

inductive SortDir where
  | asc
  | desc
deriving DecidableEq

/-- Modelled from the spec: the storage layer's sort-string convention (the
source passes the raw space-joined string to the storage layer, whose
convention reads a leading hyphen as descending). One token of the sort
string. -/
def tokSpec (t : Str) : Str × SortDir :=
  match t with
  | '-' :: r => (r, SortDir.desc)
  | _ => (t, SortDir.asc)

/-- Modelled from the spec: interpretation of a storage-layer sort string as
an ordered sequence of (field, direction) pairs — whitespace-separated
tokens in order, a leading hyphen meaning descending. -/
def parseSortSpec (s : Str) : List (Str × SortDir) :=
  ((splitOnChar ' ' s).filter (fun t => !t.isEmpty)).map tokSpec

/-- Modelled from the spec: `this.getBootcamps.length` is the arity of the
wrapped handler produced by the async middleware (`middleware/async`, not
among the sources); the standard wrapper takes `(req, res, next)`, so the
value is the constant 3. What the claims need is that it is a constant,
independent of the result set. -/
def getBootcampsFnLength : Nat := 3

/-- Observable outcome of one `getBootcamps` run: the response fields plus
the query pieces the handler passed to the storage layer. -/
structure ListOutcome (α : Type) where
  success : Bool
  count : Nat
  pagination : Pagination
  data : List α
  totalUsed : Int
  filterStr : Str
  selectUsed : Option Str
  sortUsed : Str
deriving DecidableEq

/-- Lines 10-80 of the source, with the storage layer abstracted as the
collaborators the spec names: `matchFn` decides whether a document matches
the serialized filter, `sortFn` orders a result list for a sort string, and
`selectFn` projects a result list to a field list. `total` is
`Bootcamp.countDocuments()` — the size of the whole collection, no filter
applied. The window is applied with negative offsets clamped at zero
(no claim in scope reaches a negative window). -/
def runGetBootcamps {α : Type} (matchFn : Str → α → Bool)
    (sortFn : Str → List α → List α) (selectFn : Str → List α → List α)
    (db : List α) (q : RawParams) : ListOutcome α :=
  let fStr := buildFilterStr q
  let found := db.filter (matchFn fStr)
  let selectVal :=
    match lookupStr q selectKey with
    | some s => if s.isEmpty then none else some (joinWith ' ' (splitOnChar ',' s))
    | none => none
  let selected :=
    match selectVal with
    | some fields => selectFn fields found
    | none => found
  let sStr := buildSortStr q
  let sorted := sortFn sStr selected
  let pag := buildPagination q (Int.ofNat db.length)
  let paged := (sorted.drop pag.startIndex.toNat).take pag.limit.toNat
  { success := true
    count := getBootcampsFnLength
    pagination := pag
    data := paged
    totalUsed := Int.ofNat db.length
    filterStr := fStr
    selectUsed := selectVal
    sortUsed := sStr }

structure BootcampDoc where
  id : Str
deriving DecidableEq

structure FileInfo where
  name : Str
  mimetype : Str
  size : Int
deriving DecidableEq

/-- Observable outcome of one `bootcampPhotoUpload` run: response status and
message, whether the file was moved and where, and the database photo-field
update if any. -/
structure UploadOutcome where
  status : Nat
  errMsg : Option Str
  moved : Bool
  movedTo : Option Str
  photoUpdate : Option Str
deriving DecidableEq

/-- `path.parse(name).ext`: the suffix from the last dot, empty when the
name has no dot. -/
def extOf (s : Str) : Str :=
  let r := s.reverse.takeWhile (fun c => c ≠ '.')
  if r.length = s.length then [] else '.' :: r.reverse

/-- Lines 155-201 of the source: the photo-upload handler. `bootcamp` is the
`findById` result, `files` the uploaded file if any, `maxFileUpload` and
`uploadPath` the two environment values, and `mvOk` the outcome of the
`file.mv` callback. -/
def bootcampPhotoUpload (reqId : Str) (bootcamp : Option BootcampDoc)
    (files : Option FileInfo) (maxFileUpload : Int) (uploadPath : Str)
    (mvOk : Bool) : UploadOutcome :=
  match bootcamp with
  | none =>
    { status := 404
      errMsg := some (str ("Bootcamp not found with id of ") ++ reqId)
      moved := false, movedTo := none, photoUpdate := none }
  | some b =>
    match files with
    | none =>
      { status := 400
        errMsg := some (str ("Please upload a file"))
        moved := false, movedTo := none, photoUpdate := none }
    | some file =>
      if !((str ("image")).isPrefixOf file.mimetype) then
        { status := 400
          errMsg := some (str ("Please upload an image file"))
          moved := false, movedTo := none, photoUpdate := none }
      else if maxFileUpload < file.size then
        { status := 400
          errMsg := some (str ("Please upload an image less than ") ++ str (toString maxFileUpload))
          moved := false, movedTo := none, photoUpdate := none }
      else
        let newName := str ("photo_") ++ b.id ++ extOf file.name
        if mvOk then
          { status := 200
            errMsg := none
            moved := true
            movedTo := some (uploadPath ++ ('/' :: newName))
            photoUpdate := some newName }
        else
          { status := 500
            errMsg := some (str ("Problem with file upload"))
            moved := false, movedTo := none, photoUpdate := none }

/-! ## Properties of the global operator replace -/

theorem rewriteRun_nil : rewriteRun [] = [] := by decide

theorem opReplaceGo_append (b : Str) (hb : HeadNW b) :
    ∀ (a run : Str), opReplaceGo run (a ++ b) = opReplaceGo run a ++ opReplaceGo [] b := by
  intro a
  induction a with
  | nil =>
    intro run
    cases b with
    | nil => simp [opReplaceGo, rewriteRun_nil]
    | cons c cs =>
      have hc : isWordChar c = false := hb
      simp [opReplaceGo, hc, rewriteRun_nil]
  | cons c as ih =>
    intro run
    cases hc : isWordChar c with
    | true => simp [opReplaceGo, hc, ih]
    | false => simp [opReplaceGo, hc, ih []]

theorem opReplace_append (a b : Str) (hb : HeadNW b) :
    opReplace (a ++ b) = opReplace a ++ opReplace b :=
  opReplaceGo_append b hb a []

theorem opReplaceGo_allW (w : Str) (hw : ∀ c ∈ w, isWordChar c = true) :
    ∀ run : Str, opReplaceGo run w = rewriteRun (run ++ w) := by
  induction w with
  | nil => intro run; simp [opReplaceGo]
  | cons c cs ih =>
    intro run
    have hc : isWordChar c = true := hw c (List.mem_cons_self c cs)
    have ih' := ih (fun d hd => hw d (List.mem_cons_of_mem c hd))
    simp [opReplaceGo, hc, ih']

theorem opReplace_allW (w : Str) (hw : ∀ c ∈ w, isWordChar c = true) :
    opReplace w = rewriteRun w := by
  simpa using opReplaceGo_allW w hw []

theorem opReplace_allNW_append (a b : Str) (ha : ∀ c ∈ a, isWordChar c = false) :
    opReplace (a ++ b) = a ++ opReplace b := by
  induction a with
  | nil => simp
  | cons c as ih =>
    have hc : isWordChar c = false := ha c (List.mem_cons_self c as)
    have ih' := ih (fun d hd => ha d (List.mem_cons_of_mem c hd))
    simp only [List.cons_append, opReplace, opReplaceGo, hc]
    simp [rewriteRun_nil]
    exact ih'

theorem opReplace_cons_nonword (c : Char) (s : Str) (hc : isWordChar c = false) :
    opReplace (c :: s) = c :: opReplace s := by
  have := opReplace_allNW_append [c] s (by intro d hd; simp at hd; subst hd; exact hc)
  simpa using this

theorem headNW_dropWhile (cs : Str) : HeadNW (cs.dropWhile isWordChar) := by
  induction cs with
  | nil => trivial
  | cons c cs ih =>
    cases hc : isWordChar c with
    | true =>
      have h : List.dropWhile isWordChar (c :: cs) = List.dropWhile isWordChar cs := by
        simp [List.dropWhile_cons, hc]
      rw [h]; exact ih
    | false =>
      have h : List.dropWhile isWordChar (c :: cs) = c :: cs := by
        simp [List.dropWhile_cons, hc]
      rw [h]; exact hc

theorem opReplace_cons_word (c : Char) (cs : Str) (hc : isWordChar c = true) :
    opReplace (c :: cs) =
      rewriteRun (c :: cs.takeWhile isWordChar) ++ opReplace (cs.dropWhile isWordChar) := by
  conv_lhs => rw [show c :: cs = (c :: cs.takeWhile isWordChar) ++ cs.dropWhile isWordChar by
    simp [List.takeWhile_append_dropWhile]]
  rw [opReplace_append _ _ (headNW_dropWhile cs)]
  congr 1
  exact opReplace_allW _ (by
    intro d hd
    rcases List.mem_cons.mp hd with h | h
    · subst h; exact hc
    · exact List.mem_takeWhile_imp h)

/-! ## The escape layer of `JSON.stringify` commutes with the replace -/

theorem word_ge32 (c : Char) (h : isWordChar c = true) : 32 ≤ c.toNat := by
  simp only [isWordChar, Bool.or_eq_true, Bool.and_eq_true, decide_eq_true_eq,
    beq_iff_eq] at h
  omega

theorem escape_append (a b : Str) : escape (a ++ b) = escape a ++ escape b := by
  induction a with
  | nil => rfl
  | cons c as ih => simp [escape, ih]

theorem escapeChar_word (c : Char) (h : isWordChar c = true) : escapeChar c = [c] := by
  have h32 := word_ge32 c h
  have hq : c ≠ '"' := by intro e; subst e; exact absurd h (by decide)
  have hb : c ≠ '\\' := by intro e; subst e; exact absurd h (by decide)
  have hn : c ≠ '\n' := by intro e; subst e; exact absurd h (by decide)
  have hr : c ≠ '\r' := by intro e; subst e; exact absurd h (by decide)
  have ht : c ≠ '\t' := by intro e; subst e; exact absurd h (by decide)
  have h8 : c ≠ '\x08' := by intro e; subst e; exact absurd h (by decide)
  have hc : c ≠ '\x0c' := by intro e; subst e; exact absurd h (by decide)
  have h32' : ¬c.toNat < 32 := by omega
  simp [escapeChar, hq, hb, hn, hr, ht, h8, hc, h32']

theorem escapeChar_nonword (c : Char) (hw : isWordChar c = false) (h32 : 32 ≤ c.toNat) :
    ∃ d t, escapeChar c = d :: t ∧ isWordChar d = false ∧ ∀ e ∈ t, isWordChar e = false := by
  have hn : c ≠ '\n' := by intro e; subst e; exact absurd h32 (by decide)
  have hr : c ≠ '\r' := by intro e; subst e; exact absurd h32 (by decide)
  have ht : c ≠ '\t' := by intro e; subst e; exact absurd h32 (by decide)
  have h8 : c ≠ '\x08' := by intro e; subst e; exact absurd h32 (by decide)
  have hc : c ≠ '\x0c' := by intro e; subst e; exact absurd h32 (by decide)
  have h32' : ¬c.toNat < 32 := by omega
  by_cases hq : c = '"'
  · subst hq
    refine ⟨'\\', ['"'], by simp [escapeChar], by decide, by decide⟩
  · by_cases hb : c = '\\'
    · subst hb
      refine ⟨'\\', ['\\'], by simp [escapeChar], by decide, by decide⟩
    · refine ⟨c, [], ?_, hw, by simp⟩
      simp [escapeChar, hq, hb, hn, hr, ht, h8, hc, h32']

theorem escapeChar_nonword_allNW (c : Char) (hw : isWordChar c = false)
    (h32 : 32 ≤ c.toNat) : ∀ d ∈ escapeChar c, isWordChar d = false := by
  obtain ⟨d, t, he, hd, ht⟩ := escapeChar_nonword c hw h32
  intro e hme
  rw [he] at hme
  rcases List.mem_cons.mp hme with h | h
  · subst h; exact hd
  · exact ht e h

theorem escape_of_allW (s : Str) (h : ∀ c ∈ s, isWordChar c = true) : escape s = s := by
  induction s with
  | nil => rfl
  | cons c cs ih =>
    have hc := escapeChar_word c (h c (List.mem_cons_self c cs))
    simp [escape, hc, ih (fun d hd => h d (List.mem_cons_of_mem c hd))]

theorem rewriteRun_escape (r : Str) (h : ∀ c ∈ r, isWordChar c = true) :
    escape (rewriteRun r) = rewriteRun r := by
  unfold rewriteRun
  by_cases hm : r ∈ opTokens
  · rw [if_pos hm]
    show escapeChar '$' ++ escape r = '$' :: r
    rw [escape_of_allW r h]
    rfl
  · rw [if_neg hm]
    exact escape_of_allW r h

theorem noCtrlStr_cons (c : Char) (cs : Str) (h : noCtrlStr (c :: cs) = true) :
    32 ≤ c.toNat ∧ noCtrlStr cs = true := by
  simp only [noCtrlStr, List.all_cons, Bool.and_eq_true, decide_eq_true_eq] at h
  exact ⟨h.1, by simp [noCtrlStr, h.2]⟩

theorem escape_takeWhile (cs : Str) (h : noCtrlStr cs = true) :
    (escape cs).takeWhile isWordChar = cs.takeWhile isWordChar := by
  induction cs with
  | nil => rfl
  | cons c cs ih =>
    obtain ⟨h32, hrest⟩ := noCtrlStr_cons c cs h
    cases hc : isWordChar c with
    | true =>
      rw [show escape (c :: cs) = c :: escape cs by simp [escape, escapeChar_word c hc]]
      simp [List.takeWhile_cons, hc, ih hrest]
    | false =>
      obtain ⟨d, t, he, hd, _⟩ := escapeChar_nonword c hc h32
      rw [show escape (c :: cs) = d :: (t ++ escape cs) by simp [escape, he]]
      simp [List.takeWhile_cons, hc, hd]

theorem escape_dropWhile (cs : Str) (h : noCtrlStr cs = true) :
    (escape cs).dropWhile isWordChar = escape (cs.dropWhile isWordChar) := by
  induction cs with
  | nil => rfl
  | cons c cs ih =>
    obtain ⟨h32, hrest⟩ := noCtrlStr_cons c cs h
    cases hc : isWordChar c with
    | true =>
      rw [show escape (c :: cs) = c :: escape cs by simp [escape, escapeChar_word c hc]]
      simp [List.dropWhile_cons, hc, ih hrest]
    | false =>
      obtain ⟨d, t, he, hd, _⟩ := escapeChar_nonword c hc h32
      rw [show escape (c :: cs) = d :: (t ++ escape cs) by simp [escape, he]]
      simp [List.dropWhile_cons, hd, hc, escape, he]

theorem noCtrlStr_dropWhile (cs : Str) (h : noCtrlStr cs = true) :
    noCtrlStr (cs.dropWhile isWordChar) = true := by
  simp only [noCtrlStr, List.all_eq_true] at h ⊢
  intro c hcmem
  exact h c ((List.dropWhile_sublist isWordChar).subset hcmem)

theorem opReplace_escape : ∀ s : Str, noCtrlStr s = true →
    opReplace (escape s) = escape (opReplace s)
  | [], _ => rfl
  | c :: cs, h => by
    obtain ⟨h32, hrest⟩ := noCtrlStr_cons c cs h
    cases hc : isWordChar c with
    | true =>
      have hallW : ∀ x ∈ c :: cs.takeWhile isWordChar, isWordChar x = true := by
        intro x hx
        rcases List.mem_cons.mp hx with h' | h'
        · subst h'; exact hc
        · exact List.mem_takeWhile_imp h'
      rw [show escape (c :: cs) = c :: escape cs by simp [escape, escapeChar_word c hc],
        opReplace_cons_word c (escape cs) hc, escape_takeWhile cs hrest,
        escape_dropWhile cs hrest,
        opReplace_escape (cs.dropWhile isWordChar) (noCtrlStr_dropWhile cs hrest),
        opReplace_cons_word c cs hc, escape_append, rewriteRun_escape _ hallW]
    | false =>
      rw [show escape (c :: cs) = escapeChar c ++ escape cs from rfl,
        opReplace_allNW_append (escapeChar c) (escape cs)
          (escapeChar_nonword_allNW c hc h32),
        opReplace_escape cs hrest, opReplace_cons_nonword c cs hc,
        show escape (c :: opReplace cs) = escapeChar c ++ escape (opReplace cs) from rfl]
termination_by s => s.length
decreasing_by
  all_goals simp only [List.length_cons]
  all_goals first
    | exact Nat.lt_succ_of_le ((List.dropWhile_sublist isWordChar).length_le)
    | omega

/-! ## The replace over the whole serialized object is the per-string replace -/

theorem opReplace_strLit (s b : Str) (hs : noCtrlStr s = true) :
    opReplace (strLit s ++ b) = strLit (opReplace s) ++ opReplace b := by
  have hq : isWordChar '"' = false := by decide
  have h1 : strLit s ++ b = '"' :: (escape s ++ ('"' :: b)) := by
    simp [strLit, List.append_assoc]
  rw [h1, opReplace_cons_nonword _ _ hq, opReplace_append (escape s) ('"' :: b) hq,
    opReplace_escape s hs, opReplace_cons_nonword _ _ hq]
  simp [strLit, List.append_assoc]

theorem opReplace_innerEntry (kv : Str × Str) (b : Str) (hk : noCtrlStr kv.1 = true)
    (hv : noCtrlStr kv.2 = true) :
    opReplace (innerEntry kv ++ b) =
      innerEntry (opReplace kv.1, opReplace kv.2) ++ opReplace b := by
  have hcolon : isWordChar ':' = false := by decide
  have h1 : innerEntry kv ++ b = strLit kv.1 ++ (':' :: (strLit kv.2 ++ b)) := by
    simp [innerEntry, List.append_assoc]
  rw [h1, opReplace_strLit kv.1 _ hk, opReplace_cons_nonword _ _ hcolon,
    opReplace_strLit kv.2 b hv]
  simp [innerEntry, List.append_assoc]

theorem opReplace_innerEntries (kvs : List (Str × Str)) (b : Str)
    (h : ∀ kv ∈ kvs, noCtrlStr kv.1 = true ∧ noCtrlStr kv.2 = true) :
    opReplace (innerEntries kvs ++ b) =
      innerEntries (kvs.map (fun kv => (opReplace kv.1, opReplace kv.2))) ++ opReplace b := by
  have hcomma : isWordChar ',' = false := by decide
  induction kvs with
  | nil => simp [innerEntries]
  | cons kv rest ih =>
    have hkv := h kv (List.mem_cons_self kv rest)
    cases rest with
    | nil =>
      simp only [innerEntries, List.map_cons, List.map_nil]
      exact opReplace_innerEntry kv b hkv.1 hkv.2
    | cons kv2 rest2 =>
      have h1 : innerEntries (kv :: kv2 :: rest2) ++ b =
          innerEntry kv ++ (',' :: (innerEntries (kv2 :: rest2) ++ b)) := by
        simp [innerEntries, List.append_assoc]
      rw [h1, opReplace_innerEntry kv _ hkv.1 hkv.2, opReplace_cons_nonword _ _ hcomma,
        ih (fun kv' h' => h kv' (List.mem_cons_of_mem kv h'))]
      simp [innerEntries, List.append_assoc]

theorem opReplace_stringifyVal (v : QVal) (b : Str) (hv : noCtrlVal v = true) :
    opReplace (stringifyVal v ++ b) = stringifyVal (rewriteVal v) ++ opReplace b := by
  cases v with
  | s w => exact opReplace_strLit w b hv
  | m kvs =>
    have hob : isWordChar '\x7b' = false := by decide
    have hcb : isWordChar '\x7d' = false := by decide
    have hmem : ∀ kv ∈ kvs, noCtrlStr kv.1 = true ∧ noCtrlStr kv.2 = true := by
      simp only [noCtrlVal, List.all_eq_true, Bool.and_eq_true] at hv
      exact hv
    have h1 : stringifyVal (QVal.m kvs) ++ b =
        '\x7b' :: (innerEntries kvs ++ ('\x7d' :: b)) := by
      simp [stringifyVal, List.append_assoc]
    rw [h1, opReplace_cons_nonword _ _ hob, opReplace_innerEntries kvs _ hmem,
      opReplace_cons_nonword _ _ hcb]
    simp [stringifyVal, rewriteVal, List.append_assoc]

theorem opReplace_outerEntry (kv : Str × QVal) (b : Str) (hk : noCtrlStr kv.1 = true)
    (hv : noCtrlVal kv.2 = true) :
    opReplace (outerEntry kv ++ b) =
      outerEntry (opReplace kv.1, rewriteVal kv.2) ++ opReplace b := by
  have hcolon : isWordChar ':' = false := by decide
  have h1 : outerEntry kv ++ b = strLit kv.1 ++ (':' :: (stringifyVal kv.2 ++ b)) := by
    simp [outerEntry, List.append_assoc]
  rw [h1, opReplace_strLit kv.1 _ hk, opReplace_cons_nonword _ _ hcolon,
    opReplace_stringifyVal kv.2 b hv]
  simp [outerEntry, List.append_assoc]

theorem opReplace_outerEntries (q : RawParams) (b : Str)
    (h : ∀ kv ∈ q, noCtrlStr kv.1 = true ∧ noCtrlVal kv.2 = true) :
    opReplace (outerEntries q ++ b) =
      outerEntries (blindRewrite q) ++ opReplace b := by
  have hcomma : isWordChar ',' = false := by decide
  induction q with
  | nil => simp [outerEntries, blindRewrite]
  | cons kv rest ih =>
    have hkv := h kv (List.mem_cons_self kv rest)
    cases rest with
    | nil =>
      simp only [outerEntries, blindRewrite, List.map_cons, List.map_nil]
      exact opReplace_outerEntry kv b hkv.1 hkv.2
    | cons kv2 rest2 =>
      have h1 : outerEntries (kv :: kv2 :: rest2) ++ b =
          outerEntry kv ++ (',' :: (outerEntries (kv2 :: rest2) ++ b)) := by
        simp [outerEntries, List.append_assoc]
      rw [h1, opReplace_outerEntry kv _ hkv.1 hkv.2, opReplace_cons_nonword _ _ hcomma,
        ih (fun kv' h' => h kv' (List.mem_cons_of_mem kv h'))]
      simp [outerEntries, blindRewrite, List.append_assoc]

theorem opReplace_stringify (q : RawParams) (h : noCtrlParams q = true) :
    opReplace (jsonStringify q) = jsonStringify (blindRewrite q) := by
  have hob : isWordChar '\x7b' = false := by decide
  have hcb : isWordChar '\x7d' = false := by decide
  have hmem : ∀ kv ∈ q, noCtrlStr kv.1 = true ∧ noCtrlVal kv.2 = true := by
    simp only [noCtrlParams, List.all_eq_true, Bool.and_eq_true] at h
    exact h
  have h1 : jsonStringify q = '\x7b' :: (outerEntries q ++ ['\x7d']) := rfl
  rw [h1, opReplace_cons_nonword _ _ hob, opReplace_outerEntries q _ hmem,
    opReplace_cons_nonword _ _ hcb]
  rfl

/-! ## Reserved-key removal -/

theorem afterRemove_reqQuery (q : RawParams) : (afterRemove q).reqQuery = q := by
  unfold afterRemove initState removeFieldsList
  simp [List.foldl_cons, List.foldl_nil]

theorem removeReserved_eq (q : RawParams) :
    removeReserved q = q.filter (fun kv => !(isReservedKey kv.1)) := by
  show (afterRemove q).reqQueryCopy = _
  unfold afterRemove initState removeFieldsList deleteKey
  simp only [List.foldl_cons, List.foldl_nil]
  rw [List.filter_filter, List.filter_filter, List.filter_filter]
  apply List.filter_congr
  intro kv _
  by_cases h1 : kv.1 = selectKey <;> by_cases h2 : kv.1 = sortKey <;>
    by_cases h3 : kv.1 = pageKey <;> by_cases h4 : kv.1 = limitKey <;>
    simp [isReservedKey, removeFieldsList, h1, h2, h3, h4]

theorem noCtrl_removeReserved (q : RawParams) (h : noCtrlParams q = true) :
    noCtrlParams (removeReserved q) = true := by
  rw [removeReserved_eq]
  simp only [noCtrlParams, List.all_eq_true] at h ⊢
  intro kv hkv
  exact h kv (List.mem_of_mem_filter hkv)

/-! ## Split and join -/

theorem splitOnCharF_no_sep (sep : Char) (x : Str) (h : sep ∉ x) :
    splitOnCharF sep x = (x, []) := by
  induction x with
  | nil => rfl
  | cons c cs ih =>
    have hc : ¬(c = sep) := by intro e; subst e; exact h (List.mem_cons_self c cs)
    simp [splitOnCharF, hc, ih (fun hm => h (List.mem_cons_of_mem c hm))]

theorem splitOnCharF_append_sep (sep : Char) (x r : Str) (h : sep ∉ x) :
    splitOnCharF sep (x ++ sep :: r) =
      (x, (splitOnCharF sep r).1 :: (splitOnCharF sep r).2) := by
  induction x with
  | nil => simp [splitOnCharF]
  | cons c cs ih =>
    have hc : ¬(c = sep) := by intro e; subst e; exact h (List.mem_cons_self c cs)
    simp [splitOnCharF, hc, ih (fun hm => h (List.mem_cons_of_mem c hm))]

theorem split_join (sep : Char) (toks : List Str) (hne : toks ≠ [])
    (hmem : ∀ t ∈ toks, sep ∉ t) :
    splitOnChar sep (joinWith sep toks) = toks := by
  induction toks with
  | nil => exact absurd rfl hne
  | cons x rest ih =>
    cases rest with
    | nil =>
      simp [joinWith, splitOnChar,
        splitOnCharF_no_sep sep x (hmem x (List.mem_cons_self x []))]
    | cons y rest2 =>
      have hx : sep ∉ x := hmem x (List.mem_cons_self x (y :: rest2))
      have ih' := ih (by simp) (fun t ht => hmem t (List.mem_cons_of_mem x ht))
      rw [show joinWith sep (x :: y :: rest2) = x ++ sep :: joinWith sep (y :: rest2)
        from rfl]
      unfold splitOnChar
      rw [splitOnCharF_append_sep sep x _ hx]
      unfold splitOnChar at ih'
      rw [show ((x, (splitOnCharF sep (joinWith sep (y :: rest2))).1 ::
          (splitOnCharF sep (joinWith sep (y :: rest2))).2) : Str × List Str).1 = x
        from rfl]
      rw [show ((x, (splitOnCharF sep (joinWith sep (y :: rest2))).1 ::
          (splitOnCharF sep (joinWith sep (y :: rest2))).2) : Str × List Str).2 =
          (splitOnCharF sep (joinWith sep (y :: rest2))).1 ::
          (splitOnCharF sep (joinWith sep (y :: rest2))).2 from rfl]
      rw [ih']

theorem parseSortSpec_join (toks : List Str) (hne : toks ≠ [])
    (hall : ∀ t ∈ toks, t ≠ [] ∧ ' ' ∉ t) :
    parseSortSpec (joinWith ' ' toks) = toks.map tokSpec := by
  unfold parseSortSpec
  rw [split_join ' ' toks hne (fun t ht => (hall t ht).2)]
  have hfilter : toks.filter (fun t => !t.isEmpty) = toks := by
    apply List.filter_eq_self.mpr
    intro t ht
    cases t with
    | nil => exact absurd rfl (hall [] ht).1
    | cons c cs => simp [List.isEmpty]
  rw [hfilter]

/-! ## Pagination support -/

theorem buildPagination_congr (q1 q2 : RawParams) (t : Int)
    (hp : lookupParam q1 pageKey = lookupParam q2 pageKey)
    (hl : lookupParam q1 limitKey = lookupParam q2 limitKey) :
    buildPagination q1 t = buildPagination q2 t := by
  unfold buildPagination
  rw [hp, hl]

theorem buildPagination_page (q : RawParams) (t : Int) :
    (buildPagination q t).page = orDefault (parseIntJs (lookupParam q pageKey)) 1 := rfl

theorem buildPagination_limit (q : RawParams) (t : Int) :
    (buildPagination q t).limit = orDefault (parseIntJs (lookupParam q limitKey)) 25 := rfl

theorem buildPagination_startIndex (q : RawParams) (t : Int) :
    (buildPagination q t).startIndex =
      ((buildPagination q t).page - 1) * (buildPagination q t).limit := rfl

theorem buildPagination_endIndex (q : RawParams) (t : Int) :
    (buildPagination q t).endIndex =
      (buildPagination q t).page * (buildPagination q t).limit := rfl

theorem buildPagination_next_eq (q : RawParams) (t : Int) :
    (buildPagination q t).next =
      (if (buildPagination q t).endIndex < t then
        some { page := (buildPagination q t).page + 1, limit := (buildPagination q t).limit }
      else none) := rfl

theorem buildPagination_prev_eq (q : RawParams) (t : Int) :
    (buildPagination q t).prev =
      (if (buildPagination q t).startIndex > 0 then
        some { page := (buildPagination q t).page - 1, limit := (buildPagination q t).limit }
      else none) := rfl

/-! ## Claims -/

/-- C1: `buildFilter` rewrites every whole-word, case-sensitive occurrence of
an operator token in gt, gte, lt, lte, in in the JSON-serialized filter
parameters (after removing the reserved keys) into the dollar-prefixed
storage operator, and because the rewrite is a blind text substitution over
the whole serialized object rather than a structural walk of operator keys,
for some input a matching token occurring inside a field value is also
rewritten.  Universally: the serialized filter equals the serialization in
which every key and every string value has its whole-word operator tokens
dollar-prefixed (for parameters free of control characters, whose escapes
would introduce spurious letters into the serialized text).  Concretely: the
value `run in the park` of the non-operator key `description` is corrupted
to `run $in the park` while the nested operator key `gt` is rewritten to
`$gt`. -/
theorem c1_blind_operator_rewrite :
    (∀ q : RawParams, noCtrlParams q = true →
      buildFilterStr q = jsonStringify (blindRewrite (removeReserved q))) ∧
    buildFilterStr [(str ("price"), QVal.m [(str ("gt"), str ("100"))]),
        (str ("description"), QVal.s (str ("run in the park")))] =
      jsonStringify [(str ("price"), QVal.m [(str ("$gt"), str ("100"))]),
        (str ("description"), QVal.s (str ("run $in the park")))] := by
  constructor
  · intro q h
    exact opReplace_stringify (removeReserved q) (noCtrl_removeReserved q h)
  · decide

theorem c1_blind_operator_rewrite_witness :
    buildFilterStr [(str ("averageCost"), QVal.m [(str ("lte"), str ("10000"))])] =
      jsonStringify (blindRewrite (removeReserved
        [(str ("averageCost"), QVal.m [(str ("lte"), str ("10000"))])])) :=
  c1_blind_operator_rewrite.1 _ (by decide)

/-- C8: for every RawParams whose keys are all among the reserved keys
`select`, `sort`, `page`, `limit`, `buildFilter` returns the empty filter
predicate (whose serialization is the empty JSON object, the serialization
of the empty parameter list). -/
theorem c8_reserved_only_gives_empty_filter :
    ∀ q : RawParams, (∀ kv ∈ q, kv.1 ∈ removeFieldsList) →
      buildFilterStr q = jsonStringify [] := by
  intro q h
  have hempty : removeReserved q = [] := by
    rw [removeReserved_eq]
    rw [List.filter_eq_nil_iff]
    intro kv hkv
    simp [isReservedKey, h kv hkv]
  unfold buildFilterStr
  rw [hempty]
  decide

theorem c8_reserved_only_gives_empty_filter_witness :
    buildFilterStr [(selectKey, QVal.s (str ("name"))), (pageKey, QVal.s (str ("2"))),
        (limitKey, QVal.s (str ("10"))), (sortKey, QVal.s (str ("name")))] =
      jsonStringify [] :=
  c8_reserved_only_gives_empty_filter _ (by decide)

/-- C9: `getBootcamps` builds the filter from a spread copy of `req.query`:
after the reserved-key deletions the original mapping is unchanged (so the
later reads of `req.query.select`, `req.query.sort`, `req.query.page` and
`req.query.limit` still see the original entries), while the copy has
exactly the reserved keys removed. -/
theorem c9_original_query_untouched :
    ∀ q : RawParams,
      (afterRemove q).reqQuery = q ∧
      removeReserved q = q.filter (fun kv => !(isReservedKey kv.1)) ∧
      lookupParam ((afterRemove q).reqQuery) selectKey = lookupParam q selectKey ∧
      lookupParam ((afterRemove q).reqQuery) sortKey = lookupParam q sortKey ∧
      lookupParam ((afterRemove q).reqQuery) pageKey = lookupParam q pageKey ∧
      lookupParam ((afterRemove q).reqQuery) limitKey = lookupParam q limitKey := by
  intro q
  refine ⟨afterRemove_reqQuery q, removeReserved_eq q, ?_, ?_, ?_, ?_⟩ <;>
    rw [afterRemove_reqQuery q]

/-- C7: with the `sort` parameter absent the sort specification is the
single entry `createdAt` descending; when `sort` is present its
comma-separated tokens are kept in input order as the precedence order
(stated for well-formed tokens: nonempty, no embedded space), and in
particular `name,-rating` sorts primarily by `name` ascending, then
`rating` descending. -/
theorem c7_sort_specification :
    (∀ q : RawParams, lookupStr q sortKey = none →
      parseSortSpec (buildSortStr q) = [(str ("createdAt"), SortDir.desc)]) ∧
    (∀ (q : RawParams) (s : Str), lookupStr q sortKey = some s → s ≠ [] →
      (∀ t ∈ splitOnChar ',' s, t ≠ [] ∧ ' ' ∉ t) →
      parseSortSpec (buildSortStr q) = (splitOnChar ',' s).map tokSpec) ∧
    parseSortSpec (buildSortStr [(sortKey, QVal.s (str ("name,-rating")))]) =
      [(str ("name"), SortDir.asc), (str ("rating"), SortDir.desc)] := by
  refine ⟨?_, ?_, by decide⟩
  · intro q h
    unfold buildSortStr
    rw [h]
    decide
  · intro q s hlook hne hall
    unfold buildSortStr
    rw [hlook]
    have hsne : s.isEmpty = false := by
      cases s with
      | nil => exact absurd rfl hne
      | cons c cs => rfl
    show parseSortSpec
      (if List.isEmpty s = true then str ("-createdAt")
       else joinWith ' ' (splitOnChar ',' s)) = List.map tokSpec (splitOnChar ',' s)
    rw [hsne, if_neg (by simp)]
    exact parseSortSpec_join (splitOnChar ',' s) (by simp [splitOnChar]) hall

theorem c7_sort_specification_witness :
    parseSortSpec (buildSortStr ([] : RawParams)) = [(str ("createdAt"), SortDir.desc)] ∧
    parseSortSpec (buildSortStr [(sortKey, QVal.s (str ("name,-rating")))]) =
      (splitOnChar ',' (str ("name,-rating"))).map tokSpec :=
  ⟨c7_sort_specification.1 [] (by decide),
   c7_sort_specification.2.1 _ _ (by decide) (by decide) (by decide)⟩

/-- C2 counterexample: the claim quantifies over every page, limit and total
used by `buildPagination`, but at `page = "2"`, `limit = "-5"`, `total = 100`
the parsed page is 2 > 1 while `prev` is absent (the code tests
`startIndex > 0` and `startIndex = (2-1)*(-5) = -5`), so the claimed
biconditional for `prev` is false. -/
theorem c2_pagination_invariant_cex :
    ¬ (∀ (q : RawParams) (t : Int),
      ((buildPagination q t).next =
          some { page := (buildPagination q t).page + 1,
                 limit := (buildPagination q t).limit } ↔
        (buildPagination q t).page * (buildPagination q t).limit < t) ∧
      ((buildPagination q t).prev =
          some { page := (buildPagination q t).page - 1,
                 limit := (buildPagination q t).limit } ↔
        1 < (buildPagination q t).page)) := by
  intro h
  have h2 := (h [(pageKey, QVal.s (str ("2"))), (limitKey, QVal.s (str ("-5")))] 100).2
  have hp : (buildPagination [(pageKey, QVal.s (str ("2"))),
      (limitKey, QVal.s (str ("-5")))] 100).prev = none := by decide
  have hpage : (1 : Int) < (buildPagination [(pageKey, QVal.s (str ("2"))),
      (limitKey, QVal.s (str ("-5")))] 100).page := by decide
  rw [hp] at h2
  exact absurd (h2.mpr hpage) (by simp)

/-- C2 amended: `next = (page+1, limit)` is present iff `page * limit < total`
(strict, so `next` is absent when they are equal) — this biconditional holds
unconditionally, for every parsed page and limit; and provided the parsed
limit is positive, `prev = (page-1, limit)` is present iff `page > 1`.  With
a negative parsed limit (reachable, e.g. `limit = "-5"`) the code's test
`startIndex > 0` diverges from `page > 1`. -/
theorem c2_pagination_invariant :
    (∀ (q : RawParams) (t : Int),
      (buildPagination q t).next =
          some { page := (buildPagination q t).page + 1,
                 limit := (buildPagination q t).limit } ↔
        (buildPagination q t).page * (buildPagination q t).limit < t) ∧
    (∀ (q : RawParams) (t : Int), 0 < (buildPagination q t).limit →
      ((buildPagination q t).prev =
          some { page := (buildPagination q t).page - 1,
                 limit := (buildPagination q t).limit } ↔
        1 < (buildPagination q t).page)) := by
  constructor
  · intro q t
    rw [buildPagination_next_eq, buildPagination_endIndex]
    by_cases h : (buildPagination q t).page * (buildPagination q t).limit < t
    · simp [h]
    · simp [h]
  · intro q t hl
    rw [buildPagination_prev_eq, buildPagination_startIndex]
    have hiff : 0 < ((buildPagination q t).page - 1) * (buildPagination q t).limit ↔
        1 < (buildPagination q t).page := by
      constructor
      · intro hp; nlinarith
      · intro hp; nlinarith
    by_cases h : ((buildPagination q t).page - 1) * (buildPagination q t).limit > 0
    · simp [h, hiff.mp h]
    · simp only [h, if_false]
      constructor
      · intro hcontra; exact absurd hcontra (by simp)
      · intro hp; exact absurd (hiff.mpr hp) h

theorem c2_pagination_invariant_witness :
    (buildPagination [(pageKey, QVal.s (str ("2"))), (limitKey, QVal.s (str ("-5")))] 100).next =
      some { page := 3, limit := -5 } ∧
    (buildPagination [(pageKey, QVal.s (str ("2"))), (limitKey, QVal.s (str ("10")))] 25).prev =
      some { page := 1, limit := 10 } :=
  ⟨(c2_pagination_invariant.1 [(pageKey, QVal.s (str ("2"))),
      (limitKey, QVal.s (str ("-5")))] 100).mpr (by decide),
   (c2_pagination_invariant.2 [(pageKey, QVal.s (str ("2"))),
      (limitKey, QVal.s (str ("10")))] 25 (by decide)).mpr (by decide)⟩

/-- C3 counterexample: the claim asserts that a parsed `page = 0` flows
through unmodified into the window computation, but `parseInt(...) || 1`
treats 0 as falsy: at `page = "0"`, `limit = "10"` the parse yields 0 yet the
used page is 1 (and `startIndex` is 0, not `(0-1)*10 = -10`). -/
theorem c3_no_clamp_cex :
    ¬ (∀ (q : RawParams) (t n : Int),
      parseIntJs (lookupParam q pageKey) = some n → (buildPagination q t).page = n) := by
  intro h
  have := h [(pageKey, QVal.s (str ("0"))), (limitKey, QVal.s (str ("10")))] 100 0 (by decide)
  exact absurd this (by decide)

/-- C3 amended: `buildPagination` does not clamp negative values — a parsed
nonzero page or limit (in particular a negative one) flows through
unmodified into `startIndex = (page-1)*limit` and `endIndex = page*limit`,
which can yield a negative skip offset (e.g. `page="2"`, `limit="-5"` gives
`startIndex = -5`) — but a parsed 0 does not flow through: `|| default`
treats 0 as falsy, so `page = "0"` becomes 1 and `limit = "0"` becomes 25. -/
theorem c3_no_clamp_of_negatives :
    (∀ (q : RawParams) (t n : Int),
      parseIntJs (lookupParam q pageKey) = some n → n ≠ 0 →
        (buildPagination q t).page = n) ∧
    (∀ (q : RawParams) (t n : Int),
      parseIntJs (lookupParam q limitKey) = some n → n ≠ 0 →
        (buildPagination q t).limit = n) ∧
    (∀ (q : RawParams) (t : Int),
      parseIntJs (lookupParam q pageKey) = some 0 → (buildPagination q t).page = 1) ∧
    (∀ (q : RawParams) (t : Int),
      parseIntJs (lookupParam q limitKey) = some 0 → (buildPagination q t).limit = 25) ∧
    (∀ (q : RawParams) (t : Int),
      (buildPagination q t).startIndex =
        ((buildPagination q t).page - 1) * (buildPagination q t).limit ∧
      (buildPagination q t).endIndex =
        (buildPagination q t).page * (buildPagination q t).limit) ∧
    (buildPagination [(pageKey, QVal.s (str ("2"))),
      (limitKey, QVal.s (str ("-5")))] 100).startIndex = -5 := by
  refine ⟨?_, ?_, ?_, ?_, ?_, by decide⟩
  · intro q t n h hne
    rw [buildPagination_page, h]
    simp [orDefault, hne]
  · intro q t n h hne
    rw [buildPagination_limit, h]
    simp [orDefault, hne]
  · intro q t h
    rw [buildPagination_page, h]
    rfl
  · intro q t h
    rw [buildPagination_limit, h]
    rfl
  · intro q t
    exact ⟨buildPagination_startIndex q t, buildPagination_endIndex q t⟩

theorem c3_no_clamp_of_negatives_witness :
    (buildPagination [(pageKey, QVal.s (str ("-2")))] 50).page = -2 ∧
    (buildPagination [(limitKey, QVal.s (str ("-5")))] 50).limit = -5 ∧
    (buildPagination [(pageKey, QVal.s (str ("0")))] 50).page = 1 := by
  refine ⟨?_, ?_, ?_⟩
  · exact c3_no_clamp_of_negatives.1 _ 50 (-2) (by decide) (by decide)
  · exact c3_no_clamp_of_negatives.2.1 _ 50 (-5) (by decide) (by decide)
  · exact c3_no_clamp_of_negatives.2.2.1 _ 50 (by decide)

/-- C4: when the `page` or `limit` parameter is missing or fails to parse as
an integer (`parseInt` yields `NaN`), `buildPagination` uses the defaults
`page = 1` and `limit = 25`; the computation is total, so nothing is thrown.
In particular `limit = "abc"` uses limit 25. -/
theorem c4_defaults_on_malformed :
    (∀ (q : RawParams) (t : Int),
      parseIntJs (lookupParam q pageKey) = none → (buildPagination q t).page = 1) ∧
    (∀ (q : RawParams) (t : Int),
      parseIntJs (lookupParam q limitKey) = none → (buildPagination q t).limit = 25) ∧
    (∀ t : Int, (buildPagination [(limitKey, QVal.s (str ("abc")))] t).limit = 25) := by
  refine ⟨?_, ?_, ?_⟩
  · intro q t h
    rw [buildPagination_page, h]
    rfl
  · intro q t h
    rw [buildPagination_limit, h]
    rfl
  · intro t
    rw [buildPagination_limit]
    decide

theorem c4_defaults_on_malformed_witness :
    (buildPagination ([] : RawParams) 7).page = 1 ∧
    (buildPagination [(limitKey, QVal.s (str ("abc")))] 7).limit = 25 :=
  ⟨c4_defaults_on_malformed.1 [] 7 (by decide),
   c4_defaults_on_malformed.2.1 [(limitKey, QVal.s (str ("abc")))] 7 (by decide)⟩

/-- C5: the total against which the pagination window is computed is the
count of the entire unfiltered collection (`Bootcamp.countDocuments()` with
no filter), so two requests with the same `page` and `limit` but different
filter parameters over the same collection get identical pagination
metadata. -/
theorem c5_total_is_unfiltered_count :
    ∀ (α : Type) (matchFn : Str → α → Bool) (sortFn : Str → List α → List α)
      (selectFn : Str → List α → List α) (db : List α) (q1 q2 : RawParams),
      lookupParam q1 pageKey = lookupParam q2 pageKey →
      lookupParam q1 limitKey = lookupParam q2 limitKey →
      (runGetBootcamps matchFn sortFn selectFn db q1).pagination =
        (runGetBootcamps matchFn sortFn selectFn db q2).pagination ∧
      (runGetBootcamps matchFn sortFn selectFn db q1).totalUsed = Int.ofNat db.length := by
  intro α matchFn sortFn selectFn db q1 q2 hp hl
  constructor
  · show buildPagination q1 (Int.ofNat db.length) = buildPagination q2 (Int.ofNat db.length)
    exact buildPagination_congr q1 q2 _ hp hl
  · rfl

theorem c5_total_is_unfiltered_count_witness :
    (runGetBootcamps (fun _ _ => true) (fun _ l => l) (fun _ l => l) ([0, 1, 2] : List Nat)
        [(pageKey, QVal.s (str ("1"))), (str ("housing"), QVal.s (str ("true")))]).pagination =
      (runGetBootcamps (fun _ _ => true) (fun _ l => l) (fun _ l => l) ([0, 1, 2] : List Nat)
        [(pageKey, QVal.s (str ("1")))]).pagination :=
  (c5_total_is_unfiltered_count Nat (fun _ _ => true) (fun _ l => l) (fun _ l => l)
    [0, 1, 2] _ _ (by decide) (by decide)).1

/-- C6: in the `getBootcamps` success response the `count` field reports
`this.getBootcamps.length` — the arity of the exporter object's wrapped
handler, a constant independent of the result set — and not the number of
entities in `data`; on an empty collection `data` has length 0 while
`count` is that constant. -/
theorem c6_count_reports_handler_length :
    (∀ (α : Type) (matchFn : Str → α → Bool) (sortFn : Str → List α → List α)
        (selectFn : Str → List α → List α) (db : List α) (q : RawParams),
        (runGetBootcamps matchFn sortFn selectFn db q).count = getBootcampsFnLength) ∧
    (runGetBootcamps (fun _ _ => true) (fun _ l => l) (fun _ l => l)
        ([] : List Unit) []).data.length ≠
      (runGetBootcamps (fun _ _ => true) (fun _ l => l) (fun _ l => l)
        ([] : List Unit) []).count :=
  ⟨fun _ _ _ _ _ _ => rfl, by decide⟩

/-- C10: `bootcampPhotoUpload` validates in a fixed order — missing bootcamp
gives the 404 outcome whatever the other inputs are; then a missing upload
gives 400 `Please upload a file`; then a mimetype that does not start with
`image` gives 400 `Please upload an image file`; then a size over
MAX_FILE_UPLOAD gives 400 — and in every failing case no file is moved and
no photo-field database update happens. -/
theorem c10_upload_validation_order :
    ∀ (reqId : Str) (bc : Option BootcampDoc) (files : Option FileInfo)
      (maxF : Int) (up : Str) (mv : Bool),
      (bc = none → bootcampPhotoUpload reqId bc files maxF up mv =
        { status := 404, errMsg := some (str ("Bootcamp not found with id of ") ++ reqId),
          moved := false, movedTo := none, photoUpdate := none }) ∧
      (∀ b, bc = some b → files = none → bootcampPhotoUpload reqId bc files maxF up mv =
        { status := 400, errMsg := some (str ("Please upload a file")),
          moved := false, movedTo := none, photoUpdate := none }) ∧
      (∀ b f, bc = some b → files = some f →
        (str ("image")).isPrefixOf f.mimetype = false →
        bootcampPhotoUpload reqId bc files maxF up mv =
        { status := 400, errMsg := some (str ("Please upload an image file")),
          moved := false, movedTo := none, photoUpdate := none }) ∧
      (∀ b f, bc = some b → files = some f →
        (str ("image")).isPrefixOf f.mimetype = true → maxF < f.size →
        (bootcampPhotoUpload reqId bc files maxF up mv).status = 400 ∧
        (bootcampPhotoUpload reqId bc files maxF up mv).moved = false ∧
        (bootcampPhotoUpload reqId bc files maxF up mv).movedTo = none ∧
        (bootcampPhotoUpload reqId bc files maxF up mv).photoUpdate = none) := by
  intro reqId bc files maxF up mv
  refine ⟨?_, ?_, ?_, ?_⟩
  · intro h
    subst h
    rfl
  · intro b hb hf
    subst hb
    subst hf
    rfl
  · intro b f hb hf him
    subst hb
    subst hf
    simp [bootcampPhotoUpload, him]
  · intro b f hb hf him hsize
    subst hb
    subst hf
    simp [bootcampPhotoUpload, him, hsize]

theorem c10_upload_validation_order_witness :
    bootcampPhotoUpload (str ("123")) none none 1000 (str ("up")) true =
      { status := 404, errMsg := some (str ("Bootcamp not found with id of ") ++ str ("123")),
        moved := false, movedTo := none, photoUpdate := none } ∧
    (bootcampPhotoUpload (str ("1")) (some { id := str ("1") })
        (some { name := str ("a.png"), mimetype := str ("image/png"), size := 2000 })
        1000 (str ("up")) true).status = 400 :=
  ⟨(c10_upload_validation_order (str ("123")) none none 1000 (str ("up")) true).1 rfl,
   ((c10_upload_validation_order (str ("1")) (some { id := str ("1") })
      (some { name := str ("a.png"), mimetype := str ("image/png"), size := 2000 })
      1000 (str ("up")) true).2.2.2 _ _ rfl rfl (by decide) (by decide)).1⟩
